import Mathlib

/-!
Verification of `@wharfkit/transact-plugin-local-signing` (`src/index.ts`).

Shallow embedding conventions:
* EOSIO names (`Name`) are modelled as already-normalized strings; the source
  normalizes every name once with `Name.from` at construction and compares with
  `Name.equals`, which on normalized names is string equality.
* The session storage collaborator (`SessionStorage`) is an association list
  from string keys to string values; `read` returns the value at the first
  matching key, `write` replaces the binding, `remove` deletes it.
* `JSON.stringify` / `JSON.parse` are embedded for the one record shape the
  plugin persists (`LocalSigningData`, three fields in object-literal order);
  string escaping follows the JSON rules, and the parser inverts them.
* Cryptographic primitives (key generation, digest, signature) are opaque
  injected functions per the spec; a signature value records exactly the
  inputs the source passes to `privateKey.signDigest(transaction.signingDigest)`.
* `async` effects are explicit state passing; hook bodies become functions
  from inputs (config, storage, transaction) to a result plus updated storage,
  and the login flow additionally records an event trace (storage writes and
  removals, transaction submissions, prompts) so ordering properties can be
  stated.
-/

namespace LocalSigning

/-! ## Chain action data model (wire shapes from `@wharfkit/session`) -/

/-- An `{actor, permission}` authorization entry on an action. -/
structure PermissionLevel where
  actor : String
  permission : String
deriving DecidableEq, Repr

/-- A `{key, weight}` entry inside an authority. -/
structure KeyWeight where
  key : String
  weight : Nat
deriving DecidableEq, Repr

/-- The `auth` payload of an `updateauth` action. -/
structure Authority where
  threshold : Nat
  keys : List KeyWeight
  accounts : List String
  waits : List Nat
deriving DecidableEq, Repr

/-- Data of an `eosio::updateauth` action. -/
structure UpdateAuthData where
  account : String
  permission : String
  parent : String
  auth : Authority
deriving DecidableEq, Repr

/-- Data of an `eosio::linkauth` action. -/
structure LinkAuthData where
  account : String
  code : String
  type : String
  requirement : String
deriving DecidableEq, Repr

/-- Action payloads: the two authority actions the plugin builds, or an
opaque application payload (serialized bytes of any other action). -/
inductive ActionData where
  | updateauth (d : UpdateAuthData)
  | linkauth (d : LinkAuthData)
  | opaquePayload (bytes : String)
deriving DecidableEq, Repr

/-- A chain action as the plugin sees it: target account, action name,
authorization list and data payload. -/
structure Action where
  account : String
  name : String
  authorization : List PermissionLevel
  data : ActionData
deriving DecidableEq, Repr

/-! ## Plugin configuration and persisted record (`src/index.ts` lines 29-54) -/

/-- One `{contract, actions}` entry of `actionConfigs` (names normalized at
construction). -/
structure LocalSigningActionConfig where
  contract : String
  actions : List String
deriving DecidableEq, Repr

/-- The persisted record: `{privateKey, publicKey, permissionSetup}`. -/
structure LocalSigningData where
  privateKey : String
  publicKey : String
  permissionSetup : Bool
deriving DecidableEq, Repr

/-! ## Storage collaborator -/

/-- Storage is a string-keyed, string-valued association list. -/
def Storage := List (String × String)
deriving DecidableEq

instance : Inhabited Storage := ⟨([] : List (String × String))⟩

instance : Repr Storage := inferInstanceAs (Repr (List (String × String)))

/-- `storage.read(key)`: value at the first binding for `key`, if any. -/
def Storage.read (st : Storage) (k : String) : Option String :=
  match st with
  | [] => none
  | kv :: rest => if kv.1 == k then some kv.2 else Storage.read rest k

/-- `storage.write(key, data)`: replace any binding for `key`. -/
def Storage.write (st : Storage) (k v : String) : Storage :=
  (k, v) :: (List.filter (fun kv => kv.1 != k) st)

/-- `storage.remove(key)`: delete the binding for `key`. -/
def Storage.remove (st : Storage) (k : String) : Storage :=
  List.filter (fun kv => kv.1 != k) st

/-- `STORAGE_KEY_PREFIX` (line 24) followed by `-` and the contract:
`getStorageKey` (lines 114-116). -/
def getStorageKey (contract : String) : String :=
  "localsession" ++ "-" ++ contract

/-! ## JSON encoding of `LocalSigningData`

`saveLocalSigningData` writes `JSON.stringify(data)` and
`loadLocalSigningData` applies `JSON.parse` (lines 151-173).  The object
literal is built with fields in the order `privateKey`, `publicKey`,
`permissionSetup`, which fixes the serialized shape. -/

/-- One hex digit, as `JSON.stringify` emits in `\u00XX` escapes. -/
def hexDigitChar (n : Nat) : Char :=
  if n < 10 then Char.ofNat (48 + n) else Char.ofNat (87 + n)

/-- JSON escaping of a single character inside a string literal. -/
def jsonEscapeChar (c : Char) : List Char :=
  if c = '"' then ['\\', '"']
  else if c = '\\' then ['\\', '\\']
  else if c = Char.ofNat 10 then ['\\', 'n']
  else if c = Char.ofNat 13 then ['\\', 'r']
  else if c = Char.ofNat 9 then ['\\', 't']
  else if c = Char.ofNat 8 then ['\\', 'b']
  else if c = Char.ofNat 12 then ['\\', 'f']
  else if c.toNat < 32 then
    ['\\', 'u', '0', '0', hexDigitChar (c.toNat / 16), hexDigitChar (c.toNat % 16)]
  else [c]

/-- JSON escaping of a whole string body. -/
def jsonEscape (cs : List Char) : List Char :=
  match cs with
  | [] => []
  | c :: rest => jsonEscapeChar c ++ jsonEscape rest

/-- Literal before the private key in the serialized record. -/
def litOpenKey : List Char := ('\x7b' :: "\"privateKey\":\"".data)

/-- Literal between the private key and the public key. -/
def litMidPub : List Char := ",\"publicKey\":\"".data

/-- Literal between the public key and the setup flag. -/
def litMidSetup : List Char := ",\"permissionSetup\":".data

/-- The JSON boolean literal `true`. -/
def litTrue : List Char := ['t', 'r', 'u', 'e']

/-- The JSON boolean literal `false`. -/
def litFalse : List Char := ['f', 'a', 'l', 's', 'e']

/-- `JSON.stringify` of a `LocalSigningData` record, as a character list. -/
def serializeData (d : LocalSigningData) : List Char :=
  litOpenKey ++ jsonEscape d.privateKey.data
    ++ ('"' :: litMidPub) ++ jsonEscape d.publicKey.data
    ++ ('"' :: litMidSetup)
    ++ (if d.permissionSetup then litTrue else litFalse)
    ++ ['\x7d']

/-- `JSON.stringify` of a `LocalSigningData` record. -/
def serializeLocalSigningData (d : LocalSigningData) : String :=
  ⟨serializeData d⟩

/-- Undo a single-character JSON escape. -/
def jsonUnescapeChar (c : Char) : Option Char :=
  if c = '"' then some '"'
  else if c = '\\' then some '\\'
  else if c = '/' then some '/'
  else if c = 'n' then some (Char.ofNat 10)
  else if c = 'r' then some (Char.ofNat 13)
  else if c = 't' then some (Char.ofNat 9)
  else if c = 'b' then some (Char.ofNat 8)
  else if c = 'f' then some (Char.ofNat 12)
  else none

/-- Consume a JSON string body up to its closing quote, undoing escapes;
returns the decoded body and the remaining input. -/
def takeJsonStr : List Char → Option (List Char × List Char)
  | [] => none
  | c :: rest =>
    if c = '"' then some ([], rest)
    else if c = '\\' then
      match rest with
      | [] => none
      | e :: rest2 =>
        match jsonUnescapeChar e with
        | some u => (takeJsonStr rest2).map (fun pr => (u :: pr.1, pr.2))
        | none => none
    else (takeJsonStr rest).map (fun pr => (c :: pr.1, pr.2))

/-- Consume an expected literal, returning the remaining input. -/
def dropLit : List Char → List Char → Option (List Char)
  | [], cs => some cs
  | _ :: _, [] => none
  | p :: ps, c :: cs => if c = p then dropLit ps cs else none

/-- Parse the trailing boolean and closing brace, with the two decoded string
bodies already in hand. -/
def parseBoolTail : List Char → List Char → List Char → Option LocalSigningData
  | 't' :: 'r' :: 'u' :: 'e' :: rest, priv, pub =>
    if rest = ['\x7d'] then some ⟨⟨priv⟩, ⟨pub⟩, true⟩ else none
  | 'f' :: 'a' :: 'l' :: 's' :: 'e' :: rest, priv, pub =>
    if rest = ['\x7d'] then some ⟨⟨priv⟩, ⟨pub⟩, false⟩ else none
  | _, _, _ => none

/-- `JSON.parse` specialized to the one record shape the plugin writes, over
a character list. -/
def parseDataChars (cs : List Char) : Option LocalSigningData :=
  (dropLit litOpenKey cs).bind fun r1 =>
  (takeJsonStr r1).bind fun pr1 =>
  (dropLit litMidPub pr1.2).bind fun r3 =>
  (takeJsonStr r3).bind fun pr2 =>
  (dropLit litMidSetup pr2.2).bind fun r5 =>
  parseBoolTail r5 pr1.1 pr2.1

/-- `JSON.parse` specialized to the one record shape the plugin writes. -/
def parseLocalSigningData (s : String) : Option LocalSigningData :=
  parseDataChars s.data

/-- A character that JSON string escaping leaves unchanged. -/
def plainChar (c : Char) : Bool :=
  c != '"' && c != '\\' && decide (32 <= c.toNat)

/-- A string whose JSON encoding is itself (true of WIF/base58 key material). -/
def plainString (s : String) : Bool :=
  s.data.all plainChar

/-! ## KeyVault operations (`src/index.ts` lines 151-181) -/

/-- `loadLocalSigningData` (lines 151-161): read the storage key and parse. -/
def loadLocalSigningData (st : Storage) (contract : String) : Option LocalSigningData :=
  match Storage.read st (getStorageKey contract) with
  | none => none
  | some v => parseLocalSigningData v

/-- `saveLocalSigningData` (lines 166-173): write the serialized record. -/
def saveLocalSigningData (st : Storage) (contract : String) (d : LocalSigningData) : Storage :=
  Storage.write st (getStorageKey contract) (serializeLocalSigningData d)

/-- `deleteLocalSigningData` (lines 178-181). -/
def deleteLocalSigningData (st : Storage) (contract : String) : Storage :=
  Storage.remove st (getStorageKey contract)

/-! ## ActionMatcher and pure builders (`src/index.ts` lines 126-268) -/

/-- `getPermissionName` (lines 129-131): the permission name is the contract
name itself. -/
def getPermissionName (contract : String) : String :=
  contract

/-- `isLocalSigningAction` (lines 136-146): some config entry matches the
action's account and contains the action's name. -/
def isLocalSigningAction (cfgs : List LocalSigningActionConfig) (a : Action) : Bool :=
  cfgs.any (fun cfg =>
    (a.account == cfg.contract) && cfg.actions.any (fun an => an == a.name))

/-- `createUpdateAuthAction` (lines 209-242). -/
def createUpdateAuthAction (account contract publicKey : String)
    (parentPermission : String := "active") : Action :=
  { account := "eosio"
    name := "updateauth"
    authorization := [⟨account, parentPermission⟩]
    data := ActionData.updateauth
      { account := account
        permission := getPermissionName contract
        parent := parentPermission
        auth :=
          { threshold := 1
            keys := [⟨publicKey, 1⟩]
            accounts := []
            waits := [] } } }

/-- `createLinkAuthActions` (lines 248-268): one `linkauth` per configured
action name. -/
def createLinkAuthActions (account contract : String) (actions : List String) :
    List Action :=
  actions.map (fun actionName =>
    { account := "eosio"
      name := "linkauth"
      authorization := [⟨account, "active"⟩]
      data := ActionData.linkauth
        { account := account
          code := contract
          type := actionName
          requirement := getPermissionName contract } })

/-! ## Setup predicates (`src/index.ts` lines 273-310) -/

/-- `data?.permissionSetup === true` on an optional record. -/
def isSetupData : Option LocalSigningData → Bool
  | some d => d.permissionSetup
  | none => false

/-- `isSetup` (lines 273-279): false without storage, else the loaded
record's `permissionSetup` flag. -/
def isSetup (st : Option Storage) (contract : String) : Bool :=
  match st with
  | none => false
  | some s => isSetupData (loadLocalSigningData s contract)

/-! ## Signing primitive (`src/index.ts` lines 195-203)

The source computes `transaction.signingDigest(chainId)` and signs it with the
stored WIF key.  Both are opaque chain primitives (spec section 6); a
signature value records exactly the inputs they receive. -/

/-- An opaque signature over the signing digest of a transaction. -/
structure Sig where
  keyWif : String
  chainId : String
  txnActions : List Action
deriving DecidableEq, Repr

/-- `signWithLocalKey` (lines 195-203). -/
def signWithLocalKey (txnActions : List Action) (chainId : String)
    (privateKeyWif : String) : Sig :=
  ⟨privateKeyWif, chainId, txnActions⟩

/-! ## The `beforeSign` hook (`src/index.ts` lines 315-416) -/

/-- What the hook returns to the runtime: `undefined` (pass through), a
replaced request (setup injection, signed by the user's wallet), or the
original request plus a locally produced signature. -/
inductive HookResult where
  | passThrough
  | inject (actions : List Action)
  | signed (request : List Action) (sig : Sig)
deriving DecidableEq, Repr

/-- The scan at lines 328-335: the first config entry whose stored record
exists with `permissionSetup` still false. -/
def findPendingSetupConfig (st : Storage) :
    List LocalSigningActionConfig → Option (LocalSigningActionConfig × LocalSigningData)
  | [] => none
  | cfg :: rest =>
    match loadLocalSigningData st cfg.contract with
    | some d =>
      if !d.permissionSetup then some (cfg, d)
      else findPendingSetupConfig st rest
    | none => findPendingSetupConfig st rest

/-- Inner loop of the key lookup (lines 381-391): for one action's account,
scan the configs; overwrite the accumulator with each matching load and stop
at the first record with `permissionSetup`. -/
def lookupInner (st : Storage) (acct : String) :
    List LocalSigningActionConfig → Option LocalSigningData → Option LocalSigningData
  | [], acc => acc
  | cfg :: rest, acc =>
    if acct == cfg.contract then
      let d := loadLocalSigningData st cfg.contract
      if isSetupData d then d else lookupInner st acct rest d
    else lookupInner st acct rest acc

/-- Outer loop of the key lookup (lines 380-395): actions in order, stopping
at the first set-up record. -/
def lookupLocalData (st : Storage) (cfgs : List LocalSigningActionConfig) :
    List Action → Option LocalSigningData → Option LocalSigningData
  | [], acc => acc
  | a :: rest, acc =>
    let acc2 := lookupInner st a.account cfgs acc
    if isSetupData acc2 then acc2 else lookupLocalData st cfgs rest acc2

/-- The `beforeSign` hook body after the storage guard (lines 323-414). -/
def beforeSignWithStorage (cfgs : List LocalSigningActionConfig)
    (accountName chainId : String) (st : Storage) (txnActions : List Action) :
    HookResult × Option Storage :=
  match findPendingSetupConfig st cfgs with
  | some (cfg, localData) =>
    let updateAuthAction :=
      createUpdateAuthAction accountName cfg.contract localData.publicKey
    let linkAuthActions :=
      createLinkAuthActions accountName cfg.contract cfg.actions
    let allActions := updateAuthAction :: (linkAuthActions ++ txnActions)
    let d2 := { localData with permissionSetup := true }
    let st2 := saveLocalSigningData st cfg.contract d2
    (HookResult.inject allActions, some st2)
  | none =>
    if txnActions.all (fun a => isLocalSigningAction cfgs a) then
      match lookupLocalData st cfgs txnActions none with
      | some d =>
        if d.permissionSetup && d.privateKey != "" then
          (HookResult.signed txnActions (signWithLocalKey txnActions chainId d.privateKey),
            some st)
        else (HookResult.passThrough, some st)
      | none => (HookResult.passThrough, some st)
    else (HookResult.passThrough, some st)

/-- The `beforeSign` hook body (lines 318-414): the storage guard at lines
319-321 followed by the rest of the hook.  Inputs: the configured entries,
the context's account name and chain id, the optional storage, and the
resolved transaction's actions.  Output: the hook result and the storage
afterwards. -/
def beforeSign (cfgs : List LocalSigningActionConfig) (accountName chainId : String)
    (storage : Option Storage) (txnActions : List Action) :
    HookResult × Option Storage :=
  match storage with
  | none => (HookResult.passThrough, none)
  | some st => beforeSignWithStorage cfgs accountName chainId st txnActions

/-- True exactly when the hook produced a local signature. -/
def producesSignature : HookResult → Bool
  | HookResult.signed _ _ => true
  | _ => false

/-! ## Event traces

The login flow and teardown are modelled with an explicit trace of their
observable effects, so ordering ("persisted only after acceptance") and frame
("only storage deletions") properties can be stated. -/

/-- Outcome of submitting a transaction through the session. -/
inductive TransactOutcome where
  | accepted
  | rejected
deriving DecidableEq, Repr

/-- Outcome of the consent prompt: approval, explicit decline, no response
(`!promptResponse`), or the prompt throwing (UI closed, caught at line 503). -/
inductive PromptOutcome where
  | approved
  | declined
  | noResponse
  | uiError
deriving DecidableEq, Repr

/-- Observable effects of the login flow and teardown. -/
inductive StoreEvent where
  | prompt (contract : String) (outcome : PromptOutcome)
  | write (contract : String) (d : LocalSigningData)
  | removeRec (contract : String)
  | submit (contract : String) (actions : List Action) (outcome : TransactOutcome)
deriving DecidableEq, Repr

/-! ## Teardown (`src/index.ts` lines 301-310) -/

/-- The deletion loop of `teardown` (lines 307-309), with its effect trace. -/
def teardownLoop (st : Storage) :
    List LocalSigningActionConfig → Storage × List StoreEvent
  | [] => (st, [])
  | cfg :: rest =>
    let st1 := deleteLocalSigningData st cfg.contract
    let r := teardownLoop st1 rest
    (r.1, StoreEvent.removeRec cfg.contract :: r.2)

/-- `teardown` (lines 301-310): nothing without storage, else delete the
record of every configured contract. -/
def teardown (storage : Option Storage) (cfgs : List LocalSigningActionConfig) :
    Option Storage × List StoreEvent :=
  match storage with
  | none => (none, [])
  | some st =>
    let r := teardownLoop st cfgs
    (some r.1, r.2)

/-! ## The `afterLogin` hook (`src/index.ts` lines 444-549) -/

/-- The external collaborators the login flow consults, per contract: the
consent UI, the key generator (a fresh `(wif, public)` pair per contract),
the session's transact outcome, and whether a session (with its actor) is
available on the context. -/
structure LoginEnv where
  promptOutcome : String → PromptOutcome
  genKey : String → String × String
  transactOutcome : String → TransactOutcome
  hasSession : Bool
  actor : String

/-- The skip test at line 463: `existingData?.privateKey` is truthy. -/
def hasKeyData : Option LocalSigningData → Bool
  | some d => d.privateKey != ""
  | none => false

/-- Result of a run of the `afterLogin` hook: the rethrown error if any (the
contract whose setup transaction failed, line 544), the final storage, and
the effect trace. -/
structure RunOut where
  err : Option String
  store : Storage
  events : List StoreEvent
deriving DecidableEq, Repr

/-- The `afterLogin` hook body (lines 445-549): process each configured
contract in order; skip it when a key already exists; prompt; on approval
generate a key, save it with `permissionSetup: false`, submit the setup
transaction through the session, then either mark the record set up
(acceptance) or delete it and rethrow (rejection).  Without a session the
record is left saved with `permissionSetup: false`. -/
def afterLoginRun (env : LoginEnv) :
    List LocalSigningActionConfig → Storage → RunOut
  | [], st => ⟨none, st, []⟩
  | cfg :: rest, st =>
    if hasKeyData (loadLocalSigningData st cfg.contract) then
      afterLoginRun env rest st
    else
      let outcome := env.promptOutcome cfg.contract
      let pe := StoreEvent.prompt cfg.contract outcome
      match outcome with
      | PromptOutcome.approved =>
        let pair := env.genKey cfg.contract
        let localData : LocalSigningData := ⟨pair.1, pair.2, false⟩
        let st1 := saveLocalSigningData st cfg.contract localData
        let we := StoreEvent.write cfg.contract localData
        if env.hasSession then
          let setupActions :=
            createUpdateAuthAction env.actor cfg.contract pair.2
              :: createLinkAuthActions env.actor cfg.contract cfg.actions
          match env.transactOutcome cfg.contract with
          | TransactOutcome.accepted =>
            let d2 : LocalSigningData := ⟨pair.1, pair.2, true⟩
            let st2 := saveLocalSigningData st1 cfg.contract d2
            let r := afterLoginRun env rest st2
            ⟨r.err, r.store,
              pe :: we
                :: StoreEvent.submit cfg.contract setupActions TransactOutcome.accepted
                :: StoreEvent.write cfg.contract d2 :: r.events⟩
          | TransactOutcome.rejected =>
            let st2 := deleteLocalSigningData st1 cfg.contract
            ⟨some cfg.contract, st2,
              [pe, we,
                StoreEvent.submit cfg.contract setupActions TransactOutcome.rejected,
                StoreEvent.removeRec cfg.contract]⟩
        else
          let r := afterLoginRun env rest st1
          ⟨r.err, r.store, pe :: we :: r.events⟩
      | _ =>
        let r := afterLoginRun env rest st
        ⟨r.err, r.store, pe :: r.events⟩

/-- The record saved before the setup transaction is submitted. -/
def freshRecord (env : LoginEnv) (contract : String) : LocalSigningData :=
  ⟨(env.genKey contract).1, (env.genKey contract).2, false⟩

/-- The record saved after the setup transaction is accepted. -/
def readyRecord (env : LoginEnv) (contract : String) : LocalSigningData :=
  ⟨(env.genKey contract).1, (env.genKey contract).2, true⟩

/-- The install-plus-link action list the login flow submits. -/
def setupActionsFor (env : LoginEnv) (cfg : LocalSigningActionConfig) : List Action :=
  createUpdateAuthAction env.actor cfg.contract (env.genKey cfg.contract).2
    :: createLinkAuthActions env.actor cfg.contract cfg.actions

/-- True exactly on an accepted setup-transaction submission event. -/
def isAcceptedSubmit : StoreEvent → Bool
  | StoreEvent.submit _ _ TransactOutcome.accepted => true
  | _ => false

/-- Modelled from the spec: the persisted value is "the key encoded with a
reversible, non-cryptographic obfuscation ... to avoid naive
plaintext-pattern detection", i.e. the plaintext key material must not occur
verbatim inside the stored value. -/
def keyObfuscatedInStoredValue (d : LocalSigningData) : Prop :=
  ¬ ∃ pre post, serializeData d = pre ++ d.privateKey.data ++ post

/-- The chain's plaintext private-key prefix patterns (`PVT_...` for modern
encodings, a leading `5` for legacy WIF). -/
def startsWithKeyPattern : List Char → Bool
  | 'P' :: 'V' :: 'T' :: '_' :: _ => true
  | '5' :: _ => true
  | _ => false

/-- A trace is clean when every write of a fully-set-up record
(`permissionSetup = true`) for a contract comes after an accepted setup
submission for that same contract; `acceptedSoFar` carries the contracts
whose submission has already been accepted. -/
def setupWritesFollowAccept (acceptedSoFar : List String) :
    List StoreEvent → Bool
  | [] => true
  | StoreEvent.prompt _ _ :: rest => setupWritesFollowAccept acceptedSoFar rest
  | StoreEvent.write c d :: rest =>
    (!d.permissionSetup || acceptedSoFar.contains c)
      && setupWritesFollowAccept acceptedSoFar rest
  | StoreEvent.removeRec _ :: rest => setupWritesFollowAccept acceptedSoFar rest
  | StoreEvent.submit c _ o :: rest =>
    setupWritesFollowAccept
      (if o = TransactOutcome.accepted then c :: acceptedSoFar else acceptedSoFar) rest

/-! ## Storage lemmas -/

lemma read_nil (k : String) : Storage.read [] k = none := rfl

lemma read_cons (kv : String × String) (rest : Storage) (k : String) :
    Storage.read (kv :: rest) k
      = if kv.1 == k then some kv.2 else Storage.read rest k := rfl

lemma read_filter_self (st : Storage) (k : String) :
    Storage.read (List.filter (fun kv => kv.1 != k) st) k = none := by
  induction st with
  | nil => rfl
  | cons kv rest ih =>
    by_cases h : kv.1 = k
    · simp [List.filter_cons, h, ih]
    · have hb : (kv.1 != k) = true := by simp [h]
      rw [List.filter_cons]
      simp only [hb, if_true]
      rw [read_cons]
      simp [h, ih]

lemma read_filter_ne (st : Storage) (k k2 : String) (h : k2 ≠ k) :
    Storage.read (List.filter (fun kv => kv.1 != k) st) k2 = Storage.read st k2 := by
  induction st with
  | nil => rfl
  | cons kv rest ih =>
    rw [List.filter_cons]
    by_cases hk : kv.1 = k
    · simp only [hk, bne_self_eq_false, if_false]
      rw [read_cons]
      have : kv.1 ≠ k2 := by rw [hk]; exact fun e => h e.symm
      simp [this, ih]
    · have hb : (kv.1 != k) = true := by simp [hk]
      simp only [hb, if_true]
      rw [read_cons, read_cons]
      by_cases he : kv.1 = k2 <;> simp [he, ih]

lemma read_write (st : Storage) (k v k2 : String) :
    Storage.read (Storage.write st k v) k2
      = if k2 = k then some v else Storage.read st k2 := by
  unfold Storage.write
  rw [read_cons]
  by_cases h : k2 = k
  · simp [h]
  · have hne : ¬ k = k2 := fun e => h e.symm
    simp [hne, h, read_filter_ne st k k2 h]

lemma read_remove (st : Storage) (k k2 : String) :
    Storage.read (Storage.remove st k) k2
      = if k2 = k then none else Storage.read st k2 := by
  unfold Storage.remove
  by_cases h : k2 = k
  · simp [h, read_filter_self]
  · simp [h, read_filter_ne st k k2 h]

/-! ## JSON round-trip lemmas -/

lemma jsonEscapeChar_plain (c : Char) (h : plainChar c = true) :
    jsonEscapeChar c = [c] := by
  unfold plainChar at h
  simp only [Bool.and_eq_true, bne_iff_ne, ne_eq, decide_eq_true_eq] at h
  obtain ⟨⟨hq, hb⟩, hge⟩ := h
  have h10 : c ≠ Char.ofNat 10 := by
    intro e; rw [e] at hge; exact absurd hge (by decide)
  have h13 : c ≠ Char.ofNat 13 := by
    intro e; rw [e] at hge; exact absurd hge (by decide)
  have h9 : c ≠ Char.ofNat 9 := by
    intro e; rw [e] at hge; exact absurd hge (by decide)
  have h8 : c ≠ Char.ofNat 8 := by
    intro e; rw [e] at hge; exact absurd hge (by decide)
  have h12 : c ≠ Char.ofNat 12 := by
    intro e; rw [e] at hge; exact absurd hge (by decide)
  have hlt : ¬ c.toNat < 32 := by omega
  simp [jsonEscapeChar, hq, hb, h10, h13, h9, h8, h12, hlt]

lemma jsonEscape_plain (cs : List Char) (h : cs.all plainChar = true) :
    jsonEscape cs = cs := by
  induction cs with
  | nil => rfl
  | cons c rest ih =>
    simp only [List.all_cons, Bool.and_eq_true] at h
    rw [jsonEscape, jsonEscapeChar_plain c h.1, ih h.2]
    rfl

lemma dropLit_append (lit cs : List Char) : dropLit lit (lit ++ cs) = some cs := by
  induction lit with
  | nil => rfl
  | cons p ps ih => simp [dropLit, ih]

lemma takeJsonStr_quote (rest : List Char) :
    takeJsonStr ('"' :: rest) = some ([], rest) := by
  rw [takeJsonStr.eq_def]
  simp

lemma takeJsonStr_plain_cons (c : Char) (cs : List Char)
    (hq : c ≠ '"') (hb : c ≠ '\\') :
    takeJsonStr (c :: cs) = (takeJsonStr cs).map (fun pr => (c :: pr.1, pr.2)) := by
  rw [takeJsonStr.eq_def]
  simp [hq, hb]

lemma takeJsonStr_append (cs rest : List Char) (h : cs.all plainChar = true) :
    takeJsonStr (cs ++ '"' :: rest) = some (cs, rest) := by
  induction cs with
  | nil => rw [List.nil_append, takeJsonStr_quote]
  | cons c tl ih =>
    simp only [List.all_cons, Bool.and_eq_true] at h
    have hp := h.1
    unfold plainChar at hp
    simp only [Bool.and_eq_true, bne_iff_ne, ne_eq, decide_eq_true_eq] at hp
    obtain ⟨⟨hq, hb⟩, _⟩ := hp
    rw [List.cons_append, takeJsonStr_plain_cons c _ hq hb, ih h.2]
    rfl

lemma parse_serialize (d : LocalSigningData)
    (h1 : plainString d.privateKey = true) (h2 : plainString d.publicKey = true) :
    parseLocalSigningData (serializeLocalSigningData d) = some d := by
  obtain ⟨⟨pkl⟩, ⟨publ⟩, ps⟩ := d
  unfold plainString at h1 h2
  simp only at h1 h2
  show parseDataChars (serializeData ⟨⟨pkl⟩, ⟨publ⟩, ps⟩) = some ⟨⟨pkl⟩, ⟨publ⟩, ps⟩
  unfold parseDataChars serializeData
  simp only
  rw [jsonEscape_plain _ h1, jsonEscape_plain _ h2]
  simp only [List.append_assoc, List.cons_append]
  rw [dropLit_append, Option.some_bind]
  rw [takeJsonStr_append _ _ h1, Option.some_bind]
  simp only
  rw [dropLit_append, Option.some_bind]
  rw [takeJsonStr_append _ _ h2, Option.some_bind]
  simp only
  rw [dropLit_append, Option.some_bind]
  cases ps with
  | true => simp [litTrue, parseBoolTail]
  | false => simp [litFalse, parseBoolTail]

lemma load_save_self (st : Storage) (c : String) (d : LocalSigningData)
    (h1 : plainString d.privateKey = true) (h2 : plainString d.publicKey = true) :
    loadLocalSigningData (saveLocalSigningData st c d) c = some d := by
  unfold loadLocalSigningData saveLocalSigningData
  rw [read_write]
  simp [parse_serialize d h1 h2]

lemma load_delete_self (st : Storage) (c : String) :
    loadLocalSigningData (deleteLocalSigningData st c) c = none := by
  unfold loadLocalSigningData deleteLocalSigningData
  rw [read_remove]
  simp

/-! ## Lookup-loop lemmas for the `beforeSign` hook -/

/-- When the pending-setup scan finds nothing, every record stored for a
configured contract is already marked set up. -/
lemma findPending_none_setup (st : Storage) (cfgs : List LocalSigningActionConfig)
    (h : findPendingSetupConfig st cfgs = none) :
    ∀ cfg ∈ cfgs, ∀ d, loadLocalSigningData st cfg.contract = some d →
      d.permissionSetup = true := by
  induction cfgs with
  | nil => intro cfg hm; exact absurd hm (List.not_mem_nil cfg)
  | cons cfg rest ih =>
    intro cfg2 hm d hd
    rw [findPendingSetupConfig] at h
    rcases List.mem_cons.mp hm with he | hr
    · subst he
      rw [hd] at h
      by_cases hs : d.permissionSetup
      · exact hs
      · simp [hs] at h
    · rcases hl : loadLocalSigningData st cfg.contract with _ | d0
      · rw [hl] at h
        exact ih h cfg2 hr d hd
      · rw [hl] at h
        by_cases hs : d0.permissionSetup
        · simp only [hs, Bool.not_true, Bool.false_eq_true, if_false] at h
          exact ih h cfg2 hr d hd
        · simp [hs] at h

/-- Wherever the inner lookup returns a record, it is either the accumulator
or the stored record of some configured contract. -/
lemma lookupInner_prov (st : Storage) (acct : String)
    (cfgs : List LocalSigningActionConfig) (acc : Option LocalSigningData)
    (d : LocalSigningData) (h : lookupInner st acct cfgs acc = some d) :
    acc = some d ∨ ∃ cfg ∈ cfgs, loadLocalSigningData st cfg.contract = some d := by
  induction cfgs generalizing acc with
  | nil => exact Or.inl h
  | cons cfg rest ih =>
    rw [lookupInner] at h
    by_cases hm : (acct == cfg.contract) = true
    · simp only [hm, if_true] at h
      by_cases hs : isSetupData (loadLocalSigningData st cfg.contract) = true
      · rw [if_pos hs] at h
        exact Or.inr ⟨cfg, List.mem_cons_self cfg rest, h⟩
      · rw [if_neg hs] at h
        rcases ih _ h with he | ⟨cfg2, hm2, hl2⟩
        · exact Or.inr ⟨cfg, List.mem_cons_self cfg rest, he⟩
        · exact Or.inr ⟨cfg2, List.mem_cons_of_mem cfg hm2, hl2⟩
    · simp only [hm, if_false] at h
      rcases ih _ h with he | ⟨cfg2, hm2, hl2⟩
      · exact Or.inl he
      · exact Or.inr ⟨cfg2, List.mem_cons_of_mem cfg hm2, hl2⟩

/-- Wherever the outer lookup returns a record, it is either the accumulator
or the stored record of some configured contract. -/
lemma lookupLocalData_prov (st : Storage) (cfgs : List LocalSigningActionConfig)
    (txn : List Action) (acc : Option LocalSigningData) (d : LocalSigningData)
    (h : lookupLocalData st cfgs txn acc = some d) :
    acc = some d ∨ ∃ cfg ∈ cfgs, loadLocalSigningData st cfg.contract = some d := by
  induction txn generalizing acc with
  | nil => exact Or.inl h
  | cons a rest ih =>
    rw [lookupLocalData] at h
    by_cases hs : isSetupData (lookupInner st a.account cfgs acc) = true
    · rw [if_pos hs] at h
      exact lookupInner_prov st a.account cfgs acc d h
    · rw [if_neg hs] at h
      rcases ih _ h with he | hr
      · exact lookupInner_prov st a.account cfgs acc d he
      · exact Or.inr hr

/-- Under a storage where every configured record is already set up, the
inner lookup ends on a set-up record exactly when some configured contract
matches the account and has a stored record. -/
lemma lookupInner_setup (st : Storage) (acct : String)
    (cfgs : List LocalSigningActionConfig) (acc : Option LocalSigningData)
    (hset : ∀ cfg ∈ cfgs, ∀ d, loadLocalSigningData st cfg.contract = some d →
      d.permissionSetup = true)
    (hacc : isSetupData acc = false) :
    isSetupData (lookupInner st acct cfgs acc)
      = cfgs.any (fun cfg =>
          (acct == cfg.contract) && (loadLocalSigningData st cfg.contract).isSome) := by
  induction cfgs generalizing acc with
  | nil => simpa [lookupInner] using hacc
  | cons cfg rest ih =>
    have hsetRest : ∀ cfg2 ∈ rest, ∀ d, loadLocalSigningData st cfg2.contract = some d →
        d.permissionSetup = true :=
      fun cfg2 hm => hset cfg2 (List.mem_cons_of_mem cfg hm)
    rw [lookupInner, List.any_cons]
    by_cases hm : (acct == cfg.contract) = true
    · simp only [hm, if_true, Bool.true_and]
      rcases hl : loadLocalSigningData st cfg.contract with _ | d0
      · have : isSetupData (none : Option LocalSigningData) = false := rfl
        rw [if_neg (by simp [this])]
        simp [ih _ hsetRest this]
      · have hps : d0.permissionSetup = true :=
          hset cfg (List.mem_cons_self cfg rest) d0 hl
        have : isSetupData (some d0) = true := hps
        rw [if_pos this]
        simp [this]
    · simp only [hm, if_false, Bool.false_and, Bool.false_or]
      exact ih _ hsetRest hacc

/-- Under a storage where every configured record is already set up, the
outer lookup ends on a set-up record exactly when some transaction action's
account matches a configured contract with a stored record. -/
lemma lookupLocalData_setup (st : Storage) (cfgs : List LocalSigningActionConfig)
    (txn : List Action) (acc : Option LocalSigningData)
    (hset : ∀ cfg ∈ cfgs, ∀ d, loadLocalSigningData st cfg.contract = some d →
      d.permissionSetup = true)
    (hacc : isSetupData acc = false) :
    isSetupData (lookupLocalData st cfgs txn acc)
      = txn.any (fun a => cfgs.any (fun cfg =>
          (a.account == cfg.contract) && (loadLocalSigningData st cfg.contract).isSome)) := by
  induction txn generalizing acc with
  | nil => simpa [lookupLocalData] using hacc
  | cons a rest ih =>
    rw [lookupLocalData, List.any_cons]
    have hi := lookupInner_setup st a.account cfgs acc hset hacc
    by_cases hs : isSetupData (lookupInner st a.account cfgs acc) = true
    · rw [hs] at hi
      rw [if_pos hs, ← hi]
      simp [hs]
    · have hif : isSetupData (lookupInner st a.account cfgs acc) = false := by
        cases h2 : isSetupData (lookupInner st a.account cfgs acc) with
        | true => exact absurd h2 hs
        | false => rfl
      rw [hif] at hi
      rw [if_neg hs, ih _ hif, ← hi]
      simp

/-! ## Reduction lemmas for `afterLoginRun` -/

lemma afterLoginRun_nil (env : LoginEnv) (st : Storage) :
    afterLoginRun env [] st = ⟨none, st, []⟩ := rfl

lemma afterLoginRun_skip (env : LoginEnv) (cfg : LocalSigningActionConfig)
    (rest : List LocalSigningActionConfig) (st : Storage)
    (h : hasKeyData (loadLocalSigningData st cfg.contract) = true) :
    afterLoginRun env (cfg :: rest) st = afterLoginRun env rest st := by
  rw [afterLoginRun]
  simp [h]

lemma afterLoginRun_notApproved (env : LoginEnv) (cfg : LocalSigningActionConfig)
    (rest : List LocalSigningActionConfig) (st : Storage)
    (h1 : hasKeyData (loadLocalSigningData st cfg.contract) = false)
    (h2 : env.promptOutcome cfg.contract ≠ PromptOutcome.approved) :
    afterLoginRun env (cfg :: rest) st =
      ⟨(afterLoginRun env rest st).err, (afterLoginRun env rest st).store,
        StoreEvent.prompt cfg.contract (env.promptOutcome cfg.contract)
          :: (afterLoginRun env rest st).events⟩ := by
  rw [afterLoginRun]
  simp only [h1, Bool.false_eq_true, if_false]

lemma afterLoginRun_rejected (env : LoginEnv) (cfg : LocalSigningActionConfig)
    (rest : List LocalSigningActionConfig) (st : Storage)
    (h1 : hasKeyData (loadLocalSigningData st cfg.contract) = false)
    (h2 : env.promptOutcome cfg.contract = PromptOutcome.approved)
    (h3 : env.hasSession = true)
    (h4 : env.transactOutcome cfg.contract = TransactOutcome.rejected) :
    afterLoginRun env (cfg :: rest) st =
      ⟨some cfg.contract,
        deleteLocalSigningData
          (saveLocalSigningData st cfg.contract (freshRecord env cfg.contract)) cfg.contract,
        [StoreEvent.prompt cfg.contract PromptOutcome.approved,
          StoreEvent.write cfg.contract (freshRecord env cfg.contract),
          StoreEvent.submit cfg.contract (setupActionsFor env cfg) TransactOutcome.rejected,
          StoreEvent.removeRec cfg.contract]⟩ := by
  rw [afterLoginRun]
  simp only [h1, Bool.false_eq_true, if_false, h2, h3, if_true, h4]
  rfl

lemma afterLoginRun_accepted (env : LoginEnv) (cfg : LocalSigningActionConfig)
    (rest : List LocalSigningActionConfig) (st : Storage)
    (h1 : hasKeyData (loadLocalSigningData st cfg.contract) = false)
    (h2 : env.promptOutcome cfg.contract = PromptOutcome.approved)
    (h3 : env.hasSession = true)
    (h4 : env.transactOutcome cfg.contract = TransactOutcome.accepted) :
    afterLoginRun env (cfg :: rest) st =
      (let st2 := saveLocalSigningData
        (saveLocalSigningData st cfg.contract (freshRecord env cfg.contract))
        cfg.contract (readyRecord env cfg.contract)
      ⟨(afterLoginRun env rest st2).err, (afterLoginRun env rest st2).store,
        StoreEvent.prompt cfg.contract PromptOutcome.approved
          :: StoreEvent.write cfg.contract (freshRecord env cfg.contract)
          :: StoreEvent.submit cfg.contract (setupActionsFor env cfg) TransactOutcome.accepted
          :: StoreEvent.write cfg.contract (readyRecord env cfg.contract)
          :: (afterLoginRun env rest st2).events⟩) := by
  rw [afterLoginRun]
  simp only [h1, Bool.false_eq_true, if_false, h2, h3, if_true, h4]
  rfl

lemma afterLoginRun_noSession (env : LoginEnv) (cfg : LocalSigningActionConfig)
    (rest : List LocalSigningActionConfig) (st : Storage)
    (h1 : hasKeyData (loadLocalSigningData st cfg.contract) = false)
    (h2 : env.promptOutcome cfg.contract = PromptOutcome.approved)
    (h3 : env.hasSession = false) :
    afterLoginRun env (cfg :: rest) st =
      (let st1 := saveLocalSigningData st cfg.contract (freshRecord env cfg.contract)
      ⟨(afterLoginRun env rest st1).err, (afterLoginRun env rest st1).store,
        StoreEvent.prompt cfg.contract PromptOutcome.approved
          :: StoreEvent.write cfg.contract (freshRecord env cfg.contract)
          :: (afterLoginRun env rest st1).events⟩) := by
  rw [afterLoginRun]
  simp only [h1, Bool.false_eq_true, if_false, h2, h3, if_false]
  rfl

/-! ## Login-flow invariants -/

/-- Failure atomicity: whenever the login flow rethrows a setup failure for
contract `c`, the final storage holds no record for `c`. -/
lemma afterLogin_err_clean (env : LoginEnv) (cfgs : List LocalSigningActionConfig) :
    ∀ (st : Storage) (c : String), (afterLoginRun env cfgs st).err = some c →
      loadLocalSigningData (afterLoginRun env cfgs st).store c = none := by
  induction cfgs with
  | nil => intro st c h; rw [afterLoginRun_nil] at h; exact absurd h (by simp)
  | cons cfg rest ih =>
    intro st c h
    by_cases hk : hasKeyData (loadLocalSigningData st cfg.contract) = true
    · rw [afterLoginRun_skip env cfg rest st hk] at h ⊢
      exact ih st c h
    · have hk2 : hasKeyData (loadLocalSigningData st cfg.contract) = false := by
        cases h2 : hasKeyData (loadLocalSigningData st cfg.contract) with
        | true => exact absurd h2 hk
        | false => rfl
      by_cases ha : env.promptOutcome cfg.contract = PromptOutcome.approved
      · by_cases hs : env.hasSession = true
        · cases ht : env.transactOutcome cfg.contract with
          | accepted =>
            rw [afterLoginRun_accepted env cfg rest st hk2 ha hs ht] at h ⊢
            exact ih _ c h
          | rejected =>
            rw [afterLoginRun_rejected env cfg rest st hk2 ha hs ht] at h ⊢
            have hc : c = cfg.contract := by
              simpa using h.symm
            subst hc
            exact load_delete_self _ _
        · have hs2 : env.hasSession = false := by
            cases h2 : env.hasSession with
            | true => exact absurd h2 hs
            | false => rfl
          rw [afterLoginRun_noSession env cfg rest st hk2 ha hs2] at h ⊢
          exact ih _ c h
      · rw [afterLoginRun_notApproved env cfg rest st hk2 ha] at h ⊢
        exact ih st c h

lemma swfa_prompt (A : List String) (c : String) (o : PromptOutcome)
    (rest : List StoreEvent) :
    setupWritesFollowAccept A (StoreEvent.prompt c o :: rest)
      = setupWritesFollowAccept A rest := rfl

lemma swfa_write (A : List String) (c : String) (d : LocalSigningData)
    (rest : List StoreEvent) :
    setupWritesFollowAccept A (StoreEvent.write c d :: rest)
      = ((!d.permissionSetup || A.contains c) && setupWritesFollowAccept A rest) := rfl

lemma swfa_remove (A : List String) (c : String) (rest : List StoreEvent) :
    setupWritesFollowAccept A (StoreEvent.removeRec c :: rest)
      = setupWritesFollowAccept A rest := rfl

lemma swfa_submit_accepted (A : List String) (c : String) (acts : List Action)
    (rest : List StoreEvent) :
    setupWritesFollowAccept A (StoreEvent.submit c acts TransactOutcome.accepted :: rest)
      = setupWritesFollowAccept (c :: A) rest := by
  rw [setupWritesFollowAccept]
  simp

lemma swfa_submit_rejected (A : List String) (c : String) (acts : List Action)
    (rest : List StoreEvent) :
    setupWritesFollowAccept A (StoreEvent.submit c acts TransactOutcome.rejected :: rest)
      = setupWritesFollowAccept A rest := by
  rw [setupWritesFollowAccept]
  simp

/-- Trace cleanliness: in every run of the login flow, a write of a record
marked `permissionSetup = true` only happens after an accepted setup
submission for that same contract. -/
lemma afterLogin_trace_clean (env : LoginEnv) (cfgs : List LocalSigningActionConfig) :
    ∀ (st : Storage) (A : List String),
      setupWritesFollowAccept A (afterLoginRun env cfgs st).events = true := by
  induction cfgs with
  | nil => intro st A; rw [afterLoginRun_nil]; rfl
  | cons cfg rest ih =>
    intro st A
    by_cases hk : hasKeyData (loadLocalSigningData st cfg.contract) = true
    · rw [afterLoginRun_skip env cfg rest st hk]
      exact ih st A
    · have hk2 : hasKeyData (loadLocalSigningData st cfg.contract) = false := by
        cases h2 : hasKeyData (loadLocalSigningData st cfg.contract) with
        | true => exact absurd h2 hk
        | false => rfl
      by_cases ha : env.promptOutcome cfg.contract = PromptOutcome.approved
      · by_cases hs : env.hasSession = true
        · cases ht : env.transactOutcome cfg.contract with
          | accepted =>
            rw [afterLoginRun_accepted env cfg rest st hk2 ha hs ht]
            show setupWritesFollowAccept A
              (StoreEvent.prompt _ _ :: StoreEvent.write _ _ :: StoreEvent.submit _ _ _
                :: StoreEvent.write _ _ :: _) = true
            rw [swfa_prompt, swfa_write, swfa_submit_accepted, swfa_write]
            have hc : (cfg.contract :: A).contains cfg.contract = true := by
              simp [List.contains_cons]
            simp only [freshRecord, readyRecord, Bool.not_false, Bool.true_or,
              Bool.true_and, Bool.not_true, hc, Bool.or_true, Bool.false_or]
            exact ih _ _
          | rejected =>
            rw [afterLoginRun_rejected env cfg rest st hk2 ha hs ht]
            show setupWritesFollowAccept A
              (StoreEvent.prompt _ _ :: StoreEvent.write _ _ :: StoreEvent.submit _ _ _
                :: StoreEvent.removeRec _ :: []) = true
            rw [swfa_prompt, swfa_write, swfa_submit_rejected, swfa_remove]
            simp [freshRecord, setupWritesFollowAccept]
        · have hs2 : env.hasSession = false := by
            cases h2 : env.hasSession with
            | true => exact absurd h2 hs
            | false => rfl
          rw [afterLoginRun_noSession env cfg rest st hk2 ha hs2]
          show setupWritesFollowAccept A
            (StoreEvent.prompt _ _ :: StoreEvent.write _ _ :: _) = true
          rw [swfa_prompt, swfa_write]
          simp only [freshRecord, Bool.not_false, Bool.true_or, Bool.true_and]
          exact ih _ _
      · rw [afterLoginRun_notApproved env cfg rest st hk2 ha]
        show setupWritesFollowAccept A (StoreEvent.prompt _ _ :: _) = true
        rw [swfa_prompt]
        exact ih st A

/-! ## Teardown lemmas -/

lemma teardownLoop_read (l : List LocalSigningActionConfig) :
    ∀ (st : Storage) (k : String),
      Storage.read (teardownLoop st l).1 k
        = if l.any (fun cfg => getStorageKey cfg.contract == k) then none
          else Storage.read st k := by
  induction l with
  | nil => intro st k; simp [teardownLoop]
  | cons cfg rest ih =>
    intro st k
    rw [teardownLoop]
    simp only [List.any_cons]
    rw [ih _ k]
    unfold deleteLocalSigningData
    rw [read_remove]
    by_cases hk : k = getStorageKey cfg.contract
    · have : (getStorageKey cfg.contract == k) = true := by simp [hk]
      simp [hk, this]
    · have : (getStorageKey cfg.contract == k) = false := by
        simp [beq_iff_eq]
        exact fun e => hk e.symm
      by_cases hany : rest.any (fun cfg => getStorageKey cfg.contract == k) = true
        <;> simp [hk, this, hany]

lemma teardownLoop_events (l : List LocalSigningActionConfig) :
    ∀ (st : Storage),
      (teardownLoop st l).2 = l.map (fun cfg => StoreEvent.removeRec cfg.contract) := by
  induction l with
  | nil => intro st; rfl
  | cons cfg rest ih =>
    intro st
    rw [teardownLoop]
    simp [ih]

/-! ## Claim theorems -/

/-- C7: when no storage collaborator is configured on the context, the
`beforeSign` hook returns immediately with no request modification, no
signature and no storage effect, so the transaction proceeds through normal
signing. -/
theorem c7_no_storage_silent_pass_through (cfgs : List LocalSigningActionConfig)
    (accountName chainId : String) (txnActions : List Action) :
    beforeSign cfgs accountName chainId none txnActions
      = (HookResult.passThrough, none) := rfl

/-- C10: on a transaction with an empty action list (and no pending setup
injection for any configured contract), the `beforeSign` hook produces no
local signature and makes no modification, even though the all-actions-local
check is vacuously true: no involved contract is found, so the attempt falls
through to normal signing. -/
theorem c10_empty_transaction_pass_through (cfgs : List LocalSigningActionConfig)
    (accountName chainId : String) (st : Storage)
    (hnp : findPendingSetupConfig st cfgs = none) :
    beforeSign cfgs accountName chainId (some st) []
      = (HookResult.passThrough, some st) := by
  show beforeSignWithStorage cfgs accountName chainId st [] = _
  unfold beforeSignWithStorage
  rw [hnp]
  simp [lookupLocalData]

/-- Witness for C10 at a concrete configuration and empty storage. -/
theorem c10_witness :
    findPendingSetupConfig ([] : Storage) [⟨"gamecontract", ["play"]⟩] = none
    ∧ beforeSign [⟨"gamecontract", ["play"]⟩] "alice" "chain1" (some ([] : Storage)) []
        = (HookResult.passThrough, some ([] : Storage)) :=
  ⟨by decide, c10_empty_transaction_pass_through _ "alice" "chain1" _ (by decide)⟩

/-- C3: a transaction containing at least one action outside the configured
allow-list is never locally signed by the `beforeSign` hook, whatever the
storage contents — a transaction mixing qualifying and non-qualifying
actions is treated as non-qualifying as a whole. -/
theorem c3_mixed_transaction_never_locally_signed
    (cfgs : List LocalSigningActionConfig) (txnActions : List Action)
    (h : ∃ a ∈ txnActions, isLocalSigningAction cfgs a = false) :
    ∀ (accountName chainId : String) (storage : Option Storage),
      producesSignature (beforeSign cfgs accountName chainId storage txnActions).1
        = false := by
  intro accountName chainId storage
  have hall : txnActions.all (fun a => isLocalSigningAction cfgs a) = false := by
    rcases h with ⟨a, ha, hfa⟩
    cases hv : txnActions.all (fun a => isLocalSigningAction cfgs a) with
    | false => rfl
    | true => exact absurd (List.all_eq_true.mp hv a ha) (by simp [hfa])
  cases storage with
  | none => rfl
  | some st =>
    show producesSignature (beforeSignWithStorage cfgs accountName chainId st txnActions).1
      = false
    unfold beforeSignWithStorage
    cases hp : findPendingSetupConfig st cfgs with
    | some pr => obtain ⟨cfg, d⟩ := pr; rfl
    | none => simp [hall, producesSignature]

/-- Witness for C3: a qualifying `gamecontract::play` mixed with a
non-qualifying `eosio.token::transfer`, with a fully set-up key record in
storage. -/
theorem c3_witness :
    (∃ a ∈ [(⟨"gamecontract", "play", [⟨"alice", "gamecontract"⟩],
          ActionData.opaquePayload "p"⟩ : Action),
        ⟨"eosio.token", "transfer", [⟨"alice", "active"⟩],
          ActionData.opaquePayload "t"⟩],
      isLocalSigningAction [⟨"gamecontract", ["play"]⟩] a = false)
    ∧ producesSignature
        (beforeSign [⟨"gamecontract", ["play"]⟩] "alice" "chain1"
          (some (saveLocalSigningData [] "gamecontract"
            ⟨"5KFRESHkey", "PUBfresh", true⟩))
          [⟨"gamecontract", "play", [⟨"alice", "gamecontract"⟩],
            ActionData.opaquePayload "p"⟩,
          ⟨"eosio.token", "transfer", [⟨"alice", "active"⟩],
            ActionData.opaquePayload "t"⟩]).1 = false :=
  ⟨by decide,
    c3_mixed_transaction_never_locally_signed _ _ (by decide) "alice" "chain1" _⟩

/-- C4: `createLinkAuthActions` returns exactly one link action per
configured action, in order, each with `code` equal to the contract, `type`
equal to the action name and `requirement` equal to the permission name; and
`createUpdateAuthAction` carries an authority with threshold 1, exactly one
key entry equal to the given public key and empty account/wait lists. -/
theorem c4_setup_action_construction (account contract publicKey parent : String)
    (actions : List String) (a : Action)
    (h : a ∈ createLinkAuthActions account contract actions) :
    (createUpdateAuthAction account contract publicKey parent).data
        = ActionData.updateauth
            ⟨account, getPermissionName contract, parent, ⟨1, [⟨publicKey, 1⟩], [], []⟩⟩
    ∧ (createLinkAuthActions account contract actions).length = actions.length
    ∧ (createLinkAuthActions account contract actions).map Action.data
        = actions.map (fun an => ActionData.linkauth
            ⟨account, contract, an, getPermissionName contract⟩)
    ∧ a.account = "eosio" ∧ a.name = "linkauth"
    ∧ a.authorization = [⟨account, "active"⟩] := by
  rw [createLinkAuthActions] at h
  obtain ⟨an, han, rfl⟩ := List.mem_map.mp h
  refine ⟨rfl, ?_, ?_, rfl, rfl, rfl⟩
  · simp [createLinkAuthActions]
  · simp [createLinkAuthActions, List.map_map, Function.comp]

/-- Witness for C4 at the spec's example: contract `gamecontract` with
actions `play` and `claim`. -/
theorem c4_witness :
    ((⟨"eosio", "linkauth", [⟨"myaccount", "active"⟩],
        ActionData.linkauth ⟨"myaccount", "gamecontract", "play", "gamecontract"⟩⟩ : Action)
      ∈ createLinkAuthActions "myaccount" "gamecontract" ["play", "claim"])
    ∧ ((createUpdateAuthAction "myaccount" "gamecontract" "EOSpub" "active").data
        = ActionData.updateauth
            ⟨"myaccount", getPermissionName "gamecontract", "active",
              ⟨1, [⟨"EOSpub", 1⟩], [], []⟩⟩
      ∧ (createLinkAuthActions "myaccount" "gamecontract" ["play", "claim"]).length
          = (["play", "claim"] : List String).length
      ∧ (createLinkAuthActions "myaccount" "gamecontract" ["play", "claim"]).map Action.data
          = (["play", "claim"] : List String).map (fun an => ActionData.linkauth
              ⟨"myaccount", "gamecontract", an, getPermissionName "gamecontract"⟩)
      ∧ (⟨"eosio", "linkauth", [⟨"myaccount", "active"⟩],
          ActionData.linkauth
            ⟨"myaccount", "gamecontract", "play", "gamecontract"⟩⟩ : Action).account
          = "eosio"
      ∧ (⟨"eosio", "linkauth", [⟨"myaccount", "active"⟩],
          ActionData.linkauth
            ⟨"myaccount", "gamecontract", "play", "gamecontract"⟩⟩ : Action).name
          = "linkauth"
      ∧ (⟨"eosio", "linkauth", [⟨"myaccount", "active"⟩],
          ActionData.linkauth
            ⟨"myaccount", "gamecontract", "play", "gamecontract"⟩⟩ : Action).authorization
          = [⟨"myaccount", "active"⟩]) :=
  ⟨by decide,
    c4_setup_action_construction "myaccount" "gamecontract" "EOSpub" "active"
      ["play", "claim"] _ (by decide)⟩

/-- C6: after `teardown` on a session with storage, `isSetup` is false for
every configured contract, and the teardown trace consists of storage
deletions only — no authority-update or authority-link action is constructed
or submitted, leaving on-chain state untouched. -/
theorem c6_teardown_clears_setup_and_only_deletes
    (cfgs : List LocalSigningActionConfig) (st : Storage)
    (cfg : LocalSigningActionConfig) (h : cfg ∈ cfgs) :
    isSetup (teardown (some st) cfgs).1 cfg.contract = false
    ∧ ∀ e ∈ (teardown (some st) cfgs).2, ∃ c, e = StoreEvent.removeRec c := by
  constructor
  · have hany : cfgs.any
        (fun c2 => getStorageKey c2.contract == getStorageKey cfg.contract) = true :=
      List.any_eq_true.mpr ⟨cfg, h, by simp⟩
    have hr : Storage.read (teardownLoop st cfgs).1 (getStorageKey cfg.contract) = none := by
      rw [teardownLoop_read]
      simp [hany]
    show isSetupData (loadLocalSigningData (teardownLoop st cfgs).1 cfg.contract) = false
    unfold loadLocalSigningData
    rw [hr]
    rfl
  · intro e he
    rw [show (teardown (some st) cfgs).2 = (teardownLoop st cfgs).2 from rfl,
      teardownLoop_events] at he
    obtain ⟨c2, _, rfl⟩ := List.mem_map.mp he
    exact ⟨c2.contract, rfl⟩

/-- C2: with storage available and no pending setup injection, and with a
well-formed storage (records written by the plugin always carry non-empty
key material), the `beforeSign` hook produces a local signature exactly when
every action of the transaction qualifies under the configured allow-list
and a key record exists in storage for at least one contract involved in the
transaction; in every other case the hook passes through unmodified, and the
storage is never mutated. -/
theorem c2_local_signing_iff (cfgs : List LocalSigningActionConfig)
    (accountName chainId : String) (st : Storage) (txnActions : List Action)
    (hnp : findPendingSetupConfig st cfgs = none)
    (hwf : ∀ cfg ∈ cfgs, ∀ d, loadLocalSigningData st cfg.contract = some d →
      d.privateKey ≠ "") :
    (beforeSign cfgs accountName chainId (some st) txnActions).2 = some st
    ∧ (producesSignature (beforeSign cfgs accountName chainId (some st) txnActions).1 = true
        ↔ (txnActions.all (fun a => isLocalSigningAction cfgs a) = true
          ∧ ∃ a ∈ txnActions, ∃ cfg ∈ cfgs, a.account = cfg.contract
              ∧ (loadLocalSigningData st cfg.contract).isSome = true))
    ∧ (producesSignature (beforeSign cfgs accountName chainId (some st) txnActions).1 = false
        → (beforeSign cfgs accountName chainId (some st) txnActions).1
            = HookResult.passThrough) := by
  have hset := findPending_none_setup st cfgs hnp
  have hiff : (txnActions.any (fun a => cfgs.any (fun cfg =>
        (a.account == cfg.contract) && (loadLocalSigningData st cfg.contract).isSome))
        = true)
      ↔ (∃ a ∈ txnActions, ∃ cfg ∈ cfgs, a.account = cfg.contract
          ∧ (loadLocalSigningData st cfg.contract).isSome = true) := by
    rw [List.any_eq_true]
    constructor
    · rintro ⟨a, ha, hin⟩
      obtain ⟨cfg, hcm, hcc⟩ := List.any_eq_true.mp hin
      rw [Bool.and_eq_true, beq_iff_eq] at hcc
      exact ⟨a, ha, cfg, hcm, hcc⟩
    · rintro ⟨a, ha, cfg, hcm, hc1, hc2⟩
      exact ⟨a, ha, List.any_eq_true.mpr
        ⟨cfg, hcm, by rw [Bool.and_eq_true, beq_iff_eq]; exact ⟨hc1, hc2⟩⟩⟩
  have hbody : beforeSign cfgs accountName chainId (some st) txnActions
      = beforeSignWithStorage cfgs accountName chainId st txnActions := rfl
  rw [hbody]
  unfold beforeSignWithStorage
  rw [hnp]
  dsimp only
  by_cases hall : txnActions.all (fun a => isLocalSigningAction cfgs a) = true
  · rw [if_pos hall]
    have hkey := lookupLocalData_setup st cfgs txnActions none hset rfl
    cases hl : lookupLocalData st cfgs txnActions none with
    | none =>
      rw [hl] at hkey
      dsimp only
      have hanyf : txnActions.any (fun a => cfgs.any (fun cfg =>
          (a.account == cfg.contract) && (loadLocalSigningData st cfg.contract).isSome))
          = false := hkey.symm
      refine ⟨rfl, ?_, fun _ => rfl⟩
      constructor
      · intro hsig
        exact absurd hsig (by simp [producesSignature])
      · rintro ⟨-, hex⟩
        rw [← hiff] at hex
        rw [hanyf] at hex
        exact absurd hex (by simp)
    | some d =>
      rw [hl] at hkey
      dsimp only
      rcases lookupLocalData_prov st cfgs txnActions none d hl with habs | ⟨cfg, hcm, hload⟩
      · exact absurd habs (by simp)
      · have hkne2 : (d.privateKey != "") = true := by
          simp [hwf cfg hcm d hload]
        cases hps : d.permissionSetup with
        | true =>
          have hany : txnActions.any (fun a => cfgs.any (fun cfg =>
              (a.account == cfg.contract) && (loadLocalSigningData st cfg.contract).isSome))
              = true := by
            rw [← hkey]; exact hps
          rw [if_pos (show (true && (d.privateKey != "")) = true by
            rw [Bool.true_and]; exact hkne2)]
          refine ⟨rfl, ?_, ?_⟩
          · constructor
            · intro _
              exact ⟨hall, hiff.mp hany⟩
            · intro _
              rfl
          · intro hfalse
            exact absurd hfalse (by simp [producesSignature])
        | false =>
          have hanyf : txnActions.any (fun a => cfgs.any (fun cfg =>
              (a.account == cfg.contract) && (loadLocalSigningData st cfg.contract).isSome))
              = false := by
            rw [← hkey]; exact hps
          rw [if_neg (show ¬ (false && (d.privateKey != "")) = true by simp)]
          refine ⟨rfl, ?_, fun _ => rfl⟩
          constructor
          · intro hsig
            exact absurd hsig (by simp [producesSignature])
          · rintro ⟨-, hex⟩
            rw [← hiff] at hex
            rw [hanyf] at hex
            exact absurd hex (by simp)
  · rw [if_neg hall]
    refine ⟨rfl, ?_, fun _ => rfl⟩
    constructor
    · intro hsig
      exact absurd hsig (by simp [producesSignature])
    · rintro ⟨hx, -⟩
      exact absurd hx hall

/-- Witness for C2: a single-action qualifying transaction with a fully
set-up key record is locally signed. -/
theorem c2_witness :
    findPendingSetupConfig
        (saveLocalSigningData [] "gamecontract" ⟨"5KFRESHkey", "PUBfresh", true⟩)
        [⟨"gamecontract", ["play"]⟩] = none
    ∧ ((beforeSign [⟨"gamecontract", ["play"]⟩] "alice" "chain1"
          (some (saveLocalSigningData [] "gamecontract" ⟨"5KFRESHkey", "PUBfresh", true⟩))
          [⟨"gamecontract", "play", [⟨"alice", "gamecontract"⟩],
            ActionData.opaquePayload "p"⟩]).2
        = some (saveLocalSigningData [] "gamecontract" ⟨"5KFRESHkey", "PUBfresh", true⟩)
      ∧ (producesSignature (beforeSign [⟨"gamecontract", ["play"]⟩] "alice" "chain1"
          (some (saveLocalSigningData [] "gamecontract" ⟨"5KFRESHkey", "PUBfresh", true⟩))
          [⟨"gamecontract", "play", [⟨"alice", "gamecontract"⟩],
            ActionData.opaquePayload "p"⟩]).1 = true
        ↔ (([⟨"gamecontract", "play", [⟨"alice", "gamecontract"⟩],
              ActionData.opaquePayload "p"⟩] : List Action).all
              (fun a => isLocalSigningAction [⟨"gamecontract", ["play"]⟩] a) = true
          ∧ ∃ a ∈ ([⟨"gamecontract", "play", [⟨"alice", "gamecontract"⟩],
              ActionData.opaquePayload "p"⟩] : List Action),
            ∃ cfg ∈ ([⟨"gamecontract", ["play"]⟩] : List LocalSigningActionConfig),
              a.account = cfg.contract
              ∧ (loadLocalSigningData
                  (saveLocalSigningData [] "gamecontract" ⟨"5KFRESHkey", "PUBfresh", true⟩)
                  cfg.contract).isSome = true))
      ∧ (producesSignature (beforeSign [⟨"gamecontract", ["play"]⟩] "alice" "chain1"
            (some (saveLocalSigningData [] "gamecontract" ⟨"5KFRESHkey", "PUBfresh", true⟩))
            [⟨"gamecontract", "play", [⟨"alice", "gamecontract"⟩],
              ActionData.opaquePayload "p"⟩]).1 = false
          → (beforeSign [⟨"gamecontract", ["play"]⟩] "alice" "chain1"
              (some (saveLocalSigningData [] "gamecontract" ⟨"5KFRESHkey", "PUBfresh", true⟩))
              [⟨"gamecontract", "play", [⟨"alice", "gamecontract"⟩],
                ActionData.opaquePayload "p"⟩]).1 = HookResult.passThrough)) :=
  ⟨by decide,
    c2_local_signing_iff [⟨"gamecontract", ["play"]⟩] "alice" "chain1"
      (saveLocalSigningData [] "gamecontract" ⟨"5KFRESHkey", "PUBfresh", true⟩)
      [⟨"gamecontract", "play", [⟨"alice", "gamecontract"⟩], ActionData.opaquePayload "p"⟩]
      (by decide)
      (by
        intro cfg hc d hd
        rw [List.mem_singleton] at hc
        subst hc
        have hx : loadLocalSigningData
            (saveLocalSigningData [] "gamecontract" ⟨"5KFRESHkey", "PUBfresh", true⟩)
            (⟨"gamecontract", ["play"]⟩ : LocalSigningActionConfig).contract
            = some ⟨"5KFRESHkey", "PUBfresh", true⟩ := by decide
        rw [hx] at hd
        cases hd
        decide)⟩

/-- Witness for C6 on a storage holding a fully set-up record. -/
theorem c6_witness :
    ((⟨"gamecontract", ["play"]⟩ : LocalSigningActionConfig)
        ∈ [(⟨"gamecontract", ["play"]⟩ : LocalSigningActionConfig)])
    ∧ (isSetup
        (teardown
          (some (saveLocalSigningData [] "gamecontract" ⟨"5KFRESHkey", "PUBfresh", true⟩))
          [⟨"gamecontract", ["play"]⟩]).1
        (⟨"gamecontract", ["play"]⟩ : LocalSigningActionConfig).contract = false
      ∧ ∀ e ∈ (teardown
          (some (saveLocalSigningData [] "gamecontract" ⟨"5KFRESHkey", "PUBfresh", true⟩))
          [⟨"gamecontract", ["play"]⟩]).2, ∃ c, e = StoreEvent.removeRec c) :=
  ⟨by decide,
    c6_teardown_clears_setup_and_only_deletes _ _ _ (by decide)⟩

/-- C1 counterexample: a concrete login-flow run in which the setup
transaction is rejected, so on-chain acceptance never happens, yet a key
record write for the contract occurs — refuting "if acceptance never
happens, no key record is ever written for that contract". -/
theorem c1_counterexample :
    StoreEvent.write "gamecontract" ⟨"5KFRESHkey", "PUBfresh", false⟩
        ∈ (afterLoginRun
            ⟨fun _ => PromptOutcome.approved, fun _ => ("5KFRESHkey", "PUBfresh"),
              fun _ => TransactOutcome.rejected, true, "alice"⟩
            [⟨"gamecontract", ["play"]⟩] []).events
    ∧ ∀ e ∈ (afterLoginRun
            ⟨fun _ => PromptOutcome.approved, fun _ => ("5KFRESHkey", "PUBfresh"),
              fun _ => TransactOutcome.rejected, true, "alice"⟩
            [⟨"gamecontract", ["play"]⟩] []).events,
        isAcceptedSubmit e = false := by decide

/-- C1 (amended): in the login flow the key record is written before the
setup transaction is submitted (with `permissionSetup = false`), so key
persistence does precede on-chain success; what the code guarantees instead,
for every run of the login flow, is (a) failure atomicity — whenever the
flow rethrows a setup failure for a contract, the final storage holds no
record for it — and (b) that a record marked fully set up
(`permissionSetup = true`) is only ever written after an accepted setup
submission for that same contract. -/
theorem c1_amended_failure_atomic_and_setup_flag_after_accept
    (env : LoginEnv) (cfgs : List LocalSigningActionConfig) (st : Storage) :
    (∀ c, (afterLoginRun env cfgs st).err = some c →
      loadLocalSigningData (afterLoginRun env cfgs st).store c = none)
    ∧ setupWritesFollowAccept [] (afterLoginRun env cfgs st).events = true :=
  ⟨fun c h => afterLogin_err_clean env cfgs st c h,
    afterLogin_trace_clean env cfgs st []⟩

/-- Witness for the amended C1: the failure-atomicity conjunct discharged on
the counterexample's rejected run, and the trace-cleanliness conjunct
instantiated on a successful (accepted) run, where the set-up-flag write
actually occurs. -/
theorem c1_amended_witness :
    ((afterLoginRun
        ⟨fun _ => PromptOutcome.approved, fun _ => ("5KFRESHkey", "PUBfresh"),
          fun _ => TransactOutcome.rejected, true, "alice"⟩
        [⟨"gamecontract", ["play"]⟩] []).err = some "gamecontract"
      ∧ loadLocalSigningData
          (afterLoginRun
            ⟨fun _ => PromptOutcome.approved, fun _ => ("5KFRESHkey", "PUBfresh"),
              fun _ => TransactOutcome.rejected, true, "alice"⟩
            [⟨"gamecontract", ["play"]⟩] []).store "gamecontract" = none)
    ∧ setupWritesFollowAccept []
        (afterLoginRun
          ⟨fun _ => PromptOutcome.approved, fun _ => ("5KACCEPTkey", "PUBaccept"),
            fun _ => TransactOutcome.accepted, true, "alice"⟩
          [⟨"gamecontract", ["play"]⟩] []).events = true :=
  ⟨⟨by decide,
      (c1_amended_failure_atomic_and_setup_flag_after_accept
        ⟨fun _ => PromptOutcome.approved, fun _ => ("5KFRESHkey", "PUBfresh"),
          fun _ => TransactOutcome.rejected, true, "alice"⟩
        [⟨"gamecontract", ["play"]⟩] []).1 "gamecontract" (by decide)⟩,
    (c1_amended_failure_atomic_and_setup_flag_after_accept
      ⟨fun _ => PromptOutcome.approved, fun _ => ("5KACCEPTkey", "PUBaccept"),
        fun _ => TransactOutcome.accepted, true, "alice"⟩
      [⟨"gamecontract", ["play"]⟩] []).2⟩

/-- C5: when the setup transaction submitted during the login flow fails,
afterwards no key record exists in storage for that contract and the failure
is surfaced (the hook rethrows, reporting the contract); a retry of the
login flow prompts again and proceeds independently of the failed attempt:
it persists the retry's freshly generated key, never the half-installed
one. -/
theorem c5_setup_failure_atomic_and_retry_fresh
    (cfg : LocalSigningActionConfig) (env1 env2 : LoginEnv) (st0 : Storage)
    (ha : hasKeyData (loadLocalSigningData st0 cfg.contract) = false)
    (hb : env1.promptOutcome cfg.contract = PromptOutcome.approved)
    (hc : env1.hasSession = true)
    (hd : env1.transactOutcome cfg.contract = TransactOutcome.rejected)
    (he : env2.promptOutcome cfg.contract = PromptOutcome.approved)
    (hf : env2.transactOutcome cfg.contract = TransactOutcome.accepted)
    (hg : env2.hasSession = true)
    (hp1 : plainString (env2.genKey cfg.contract).1 = true)
    (hp2 : plainString (env2.genKey cfg.contract).2 = true) :
    (afterLoginRun env1 [cfg] st0).err = some cfg.contract
    ∧ loadLocalSigningData (afterLoginRun env1 [cfg] st0).store cfg.contract = none
    ∧ (afterLoginRun env2 [cfg] (afterLoginRun env1 [cfg] st0).store).err = none
    ∧ loadLocalSigningData
        (afterLoginRun env2 [cfg] (afterLoginRun env1 [cfg] st0).store).store cfg.contract
        = some (readyRecord env2 cfg.contract)
    ∧ StoreEvent.prompt cfg.contract PromptOutcome.approved
        ∈ (afterLoginRun env2 [cfg] (afterLoginRun env1 [cfg] st0).store).events := by
  rw [afterLoginRun_rejected env1 cfg [] st0 ha hb hc hd]
  have hload1 : loadLocalSigningData
      (deleteLocalSigningData
        (saveLocalSigningData st0 cfg.contract (freshRecord env1 cfg.contract))
        cfg.contract) cfg.contract = none := load_delete_self _ _
  have hkd : hasKeyData (loadLocalSigningData
      (deleteLocalSigningData
        (saveLocalSigningData st0 cfg.contract (freshRecord env1 cfg.contract))
        cfg.contract) cfg.contract) = false := by
    rw [hload1]
    rfl
  rw [show (RunOut.mk (some cfg.contract)
      (deleteLocalSigningData
        (saveLocalSigningData st0 cfg.contract (freshRecord env1 cfg.contract))
        cfg.contract) _).store
    = deleteLocalSigningData
        (saveLocalSigningData st0 cfg.contract (freshRecord env1 cfg.contract))
        cfg.contract from rfl]
  rw [afterLoginRun_accepted env2 cfg []
    (deleteLocalSigningData
      (saveLocalSigningData st0 cfg.contract (freshRecord env1 cfg.contract))
      cfg.contract) hkd he hg hf]
  refine ⟨rfl, hload1, rfl, ?_, ?_⟩
  · show loadLocalSigningData
      (saveLocalSigningData _ cfg.contract (readyRecord env2 cfg.contract))
      cfg.contract = some (readyRecord env2 cfg.contract)
    exact load_save_self _ _ _ hp1 hp2
  · exact List.mem_cons_self _ _

/-- Witness for C5 with concrete failing and retrying environments. -/
theorem c5_witness :
    (hasKeyData (loadLocalSigningData [] "gamecontract") = false
      ∧ plainString ("5KRETRYkey" : String) = true
      ∧ plainString ("PUBretry" : String) = true)
    ∧ ((afterLoginRun
          ⟨fun _ => PromptOutcome.approved, fun _ => ("5KFRESHkey", "PUBfresh"),
            fun _ => TransactOutcome.rejected, true, "alice"⟩
          [⟨"gamecontract", ["play"]⟩] []).err = some "gamecontract"
      ∧ loadLocalSigningData
          (afterLoginRun
            ⟨fun _ => PromptOutcome.approved, fun _ => ("5KFRESHkey", "PUBfresh"),
              fun _ => TransactOutcome.rejected, true, "alice"⟩
            [⟨"gamecontract", ["play"]⟩] []).store "gamecontract" = none
      ∧ (afterLoginRun
          ⟨fun _ => PromptOutcome.approved, fun _ => ("5KRETRYkey", "PUBretry"),
            fun _ => TransactOutcome.accepted, true, "alice"⟩
          [⟨"gamecontract", ["play"]⟩]
          (afterLoginRun
            ⟨fun _ => PromptOutcome.approved, fun _ => ("5KFRESHkey", "PUBfresh"),
              fun _ => TransactOutcome.rejected, true, "alice"⟩
            [⟨"gamecontract", ["play"]⟩] []).store).err = none
      ∧ loadLocalSigningData
          (afterLoginRun
            ⟨fun _ => PromptOutcome.approved, fun _ => ("5KRETRYkey", "PUBretry"),
              fun _ => TransactOutcome.accepted, true, "alice"⟩
            [⟨"gamecontract", ["play"]⟩]
            (afterLoginRun
              ⟨fun _ => PromptOutcome.approved, fun _ => ("5KFRESHkey", "PUBfresh"),
                fun _ => TransactOutcome.rejected, true, "alice"⟩
              [⟨"gamecontract", ["play"]⟩] []).store).store "gamecontract"
          = some (readyRecord
              ⟨fun _ => PromptOutcome.approved, fun _ => ("5KRETRYkey", "PUBretry"),
                fun _ => TransactOutcome.accepted, true, "alice"⟩ "gamecontract")
      ∧ StoreEvent.prompt "gamecontract" PromptOutcome.approved
          ∈ (afterLoginRun
              ⟨fun _ => PromptOutcome.approved, fun _ => ("5KRETRYkey", "PUBretry"),
                fun _ => TransactOutcome.accepted, true, "alice"⟩
              [⟨"gamecontract", ["play"]⟩]
              (afterLoginRun
                ⟨fun _ => PromptOutcome.approved, fun _ => ("5KFRESHkey", "PUBfresh"),
                  fun _ => TransactOutcome.rejected, true, "alice"⟩
                [⟨"gamecontract", ["play"]⟩] []).store).events) :=
  ⟨⟨by decide, by decide, by decide⟩,
    c5_setup_failure_atomic_and_retry_fresh ⟨"gamecontract", ["play"]⟩
      ⟨fun _ => PromptOutcome.approved, fun _ => ("5KFRESHkey", "PUBfresh"),
        fun _ => TransactOutcome.rejected, true, "alice"⟩
      ⟨fun _ => PromptOutcome.approved, fun _ => ("5KRETRYkey", "PUBretry"),
        fun _ => TransactOutcome.accepted, true, "alice"⟩
      [] (by decide) rfl rfl rfl rfl rfl rfl (by decide) (by decide)⟩

/-- C9: when the consent prompt for a contract does not come back approved —
explicit decline, no response, or the prompt throwing — the login flow
behaves identically in all three cases: it records only the prompt outcome
and continues to the remaining contracts with the storage untouched, no key
generated, nothing written and no setup transaction submitted. -/
theorem c9_non_approval_is_pure_skip (env : LoginEnv)
    (cfg : LocalSigningActionConfig) (rest : List LocalSigningActionConfig)
    (st : Storage)
    (h1 : hasKeyData (loadLocalSigningData st cfg.contract) = false)
    (h2 : env.promptOutcome cfg.contract ≠ PromptOutcome.approved) :
    afterLoginRun env (cfg :: rest) st
      = ⟨(afterLoginRun env rest st).err, (afterLoginRun env rest st).store,
          StoreEvent.prompt cfg.contract (env.promptOutcome cfg.contract)
            :: (afterLoginRun env rest st).events⟩ :=
  afterLoginRun_notApproved env cfg rest st h1 h2

/-- Witness for C9 with a concrete declined prompt. -/
theorem c9_witness :
    (hasKeyData (loadLocalSigningData [] "gamecontract") = false
      ∧ (⟨fun _ => PromptOutcome.declined, fun _ => ("5K", "PUB"),
          fun _ => TransactOutcome.accepted, true, "alice"⟩ : LoginEnv).promptOutcome
            "gamecontract" ≠ PromptOutcome.approved)
    ∧ afterLoginRun
        ⟨fun _ => PromptOutcome.declined, fun _ => ("5K", "PUB"),
          fun _ => TransactOutcome.accepted, true, "alice"⟩
        [⟨"gamecontract", ["play"]⟩] []
      = ⟨(afterLoginRun
            ⟨fun _ => PromptOutcome.declined, fun _ => ("5K", "PUB"),
              fun _ => TransactOutcome.accepted, true, "alice"⟩ [] []).err,
          (afterLoginRun
            ⟨fun _ => PromptOutcome.declined, fun _ => ("5K", "PUB"),
              fun _ => TransactOutcome.accepted, true, "alice"⟩ [] []).store,
          StoreEvent.prompt "gamecontract"
            ((⟨fun _ => PromptOutcome.declined, fun _ => ("5K", "PUB"),
              fun _ => TransactOutcome.accepted, true, "alice"⟩ : LoginEnv).promptOutcome
                "gamecontract")
            :: (afterLoginRun
              ⟨fun _ => PromptOutcome.declined, fun _ => ("5K", "PUB"),
                fun _ => TransactOutcome.accepted, true, "alice"⟩ [] []).events⟩ :=
  ⟨⟨by decide, by decide⟩,
    c9_non_approval_is_pure_skip
      ⟨fun _ => PromptOutcome.declined, fun _ => ("5K", "PUB"),
        fun _ => TransactOutcome.accepted, true, "alice"⟩
      ⟨"gamecontract", ["play"]⟩ [] [] (by decide) (by decide)⟩

/-- C8 counterexample: the plugin persists the record as plain
`JSON.stringify` output, so the private key occurs verbatim inside the
stored value — no obfuscating encoding is applied, refuting the claim that
the value "is the key encoded with a reversible, non-cryptographic
obfuscation" defeating naive plaintext-pattern detection. -/
theorem c8_counterexample :
    ¬ keyObfuscatedInStoredValue
        ⟨"5Jtoxgny5tT7NiNFp1MLogviuPJ9NniWjnU4wKzaX4t7pL4kJ8s", "PUBfresh", false⟩ :=
  fun h => h ⟨litOpenKey,
    ('"' :: litMidPub) ++ "PUBfresh".data ++ ('"' :: litMidSetup) ++ litFalse ++ ['\x7d'],
    by decide⟩

/-- C8 (amended): for every record whose key strings are plain (true of all
generated WIF/base58 key material), loading after saving round-trips
exactly, and the raw persisted value starts with a JSON brace — in
particular it never starts with the chain's plaintext private-key prefix
patterns — but the value is plaintext JSON: the private key appears verbatim
inside it, with no obfuscating encoding. -/
theorem c8_roundtrip_but_plaintext (st : Storage) (c : String)
    (d : LocalSigningData)
    (h1 : plainString d.privateKey = true) (h2 : plainString d.publicKey = true) :
    loadLocalSigningData (saveLocalSigningData st c d) c = some d
    ∧ (serializeData d).head? = some '\x7b'
    ∧ startsWithKeyPattern (serializeData d) = false
    ∧ ∃ pre post, serializeData d = pre ++ d.privateKey.data ++ post := by
  refine ⟨load_save_self st c d h1 h2, rfl, rfl, ?_⟩
  refine ⟨litOpenKey,
    ('"' :: litMidPub) ++ jsonEscape d.publicKey.data ++ ('"' :: litMidSetup)
      ++ (if d.permissionSetup then litTrue else litFalse) ++ ['\x7d'], ?_⟩
  unfold serializeData
  rw [jsonEscape_plain _ (by unfold plainString at h1; exact h1)]
  simp [List.append_assoc]

/-- Witness for the amended C8 at a concrete WIF-format key. -/
theorem c8_roundtrip_witness :
    (plainString ("5Jtoxgny5tT7NiNFp1MLogviuPJ9NniWjnU4wKzaX4t7pL4kJ8s" : String) = true
      ∧ plainString ("PUBfresh" : String) = true)
    ∧ (loadLocalSigningData
        (saveLocalSigningData [] "gamecontract"
          ⟨"5Jtoxgny5tT7NiNFp1MLogviuPJ9NniWjnU4wKzaX4t7pL4kJ8s", "PUBfresh", false⟩)
        "gamecontract"
        = some ⟨"5Jtoxgny5tT7NiNFp1MLogviuPJ9NniWjnU4wKzaX4t7pL4kJ8s", "PUBfresh", false⟩
      ∧ (serializeData
          ⟨"5Jtoxgny5tT7NiNFp1MLogviuPJ9NniWjnU4wKzaX4t7pL4kJ8s", "PUBfresh",
            false⟩).head? = some '\x7b'
      ∧ startsWithKeyPattern (serializeData
          ⟨"5Jtoxgny5tT7NiNFp1MLogviuPJ9NniWjnU4wKzaX4t7pL4kJ8s", "PUBfresh", false⟩)
          = false
      ∧ ∃ pre post, serializeData
          ⟨"5Jtoxgny5tT7NiNFp1MLogviuPJ9NniWjnU4wKzaX4t7pL4kJ8s", "PUBfresh", false⟩
          = pre ++ ("5Jtoxgny5tT7NiNFp1MLogviuPJ9NniWjnU4wKzaX4t7pL4kJ8s" : String).data
              ++ post) :=
  ⟨⟨by decide, by decide⟩,
    c8_roundtrip_but_plaintext [] "gamecontract"
      ⟨"5Jtoxgny5tT7NiNFp1MLogviuPJ9NniWjnU4wKzaX4t7pL4kJ8s", "PUBfresh", false⟩
      (by decide) (by decide)⟩

end LocalSigning
